import Mathlib

/-!
Verification development for the assistant-scheduler repository.

The Python sources are shallowly embedded in the `Sched` namespace:
* `instance.py` — the data model (`Group`, `Assistant`, `Instance`), the
  preference characters, the semantic validation performed at the end of
  `Instance.load`, and the `json` serializers.
* `assistant_scheduler.py` — `make_program`, which compiles an instance into a
  clingo ASP program, and the result-interpretation part of `main`.

Representation choices:
* A `Group`'s `pred` field, in Python a reference to another `Group` object,
  is represented as the predecessor's index into the instance's group list
  (`Option Nat`); the Python code only ever uses `pred.index` and `pred.name`.
* Python string indexing is embedded with `List.get?`; an out-of-range access
  (an `IndexError` in Python) and the `assert False` branch of `make_program`
  are embedded as `none`, so fallible code returns `Option`.
* ASP statements are represented by the inductive type `Stmt` instead of raw
  strings; each constructor records exactly the data the generated text line
  of `make_program` contains.
-/

namespace Sched

/-- Character constant: the preference for a bad time (a space). -/
def PREF_BAD : Char := ' '

/-- Character constant: the preference for an ok time. -/
def PREF_OK : Char := '1'

/-- Character constant: the preference for a good time. -/
def PREF_GOOD : Char := '2'

/-- The list of legal preference characters, as in `instance.py`. -/
def PREF_CHARS : List Char := [PREF_BAD, PREF_OK, PREF_GOOD]

/-- Representation of an exercise session group (`Group` in `instance.py`).
The `pred` field holds the index of the predecessor group in the instance's
group list, when one exists. -/
structure Group where
  name : String
  index : Nat
  min : Int
  max : Int
  pred : Option Nat
deriving Repr, DecidableEq

/-- Representation of an assistant (`Assistant` in `instance.py`); `prefs` is
the content of the Python preference string. -/
structure Assistant where
  name : String
  index : Nat
  prefs : List Char
  min : Int
  max : Int
deriving Repr, DecidableEq

/-- An exercise session scheduling instance (`Instance` in `instance.py`). -/
structure Instance where
  penalty_bad_time : Int
  penalty_ok_time : Int
  penalty_good_time : Int
  penalty_consecutive : Int
  groups : List Group
  assistants : List Assistant
deriving Repr, DecidableEq

/-- A statement of the generated ASP program. Each constructor corresponds to
one line appended by `make_program`:
* `factA a` — `a(a).`
* `factG g` — `group(g).`
* `cardA mn a mx` — `mn <= {in(a,G):group(G)} <= mx.`
* `cardG mn g mx` — `mn <= {in(A,g):a(A)} <= mx.`
* `softPref w a g` — `:~ in(a,g). [ w,in(a,g) ]`
* `softConsec w a p g` — `:~ in(a,p), in(a,g). [ w,in(a,p),in(a,g) ]` -/
inductive Stmt where
  | factA (a : Nat)
  | factG (g : Nat)
  | cardA (mn : Int) (a : Nat) (mx : Int)
  | cardG (mn : Int) (g : Nat) (mx : Int)
  | softPref (w : Int) (a : Nat) (g : Nat)
  | softConsec (w : Int) (a : Nat) (p : Nat) (g : Nat)
deriving Repr, DecidableEq

/-- The weak constraint emitted for one assistant and one group by the
preference loop of `make_program`: `pref = prefs[index]` followed by the
four-way dispatch on the preference character, where the final
`assert False` branch is embedded as `none`. -/
def prefStmtFor (inst : Instance) (assistant : Assistant) (index : Nat)
    (group : Group) : Option Stmt :=
  match assistant.prefs.get? index with
  | none => none
  | some pref =>
    if pref = PREF_BAD then
      some (Stmt.softPref inst.penalty_bad_time assistant.index group.index)
    else if pref = PREF_OK then
      some (Stmt.softPref inst.penalty_ok_time assistant.index group.index)
    else if pref = PREF_GOOD then
      some (Stmt.softPref inst.penalty_good_time assistant.index group.index)
    else
      none

/-- The preference weak constraints of one assistant: the loop
`for (index, group) in enumerate(instance.groups)` of `make_program`,
with the running enumeration index made explicit. -/
def prefStmts (inst : Instance) (assistant : Assistant) :
    Nat → List Group → Option (List Stmt)
  | _, [] => some []
  | index, group :: rest =>
    match prefStmtFor inst assistant index group with
    | none => none
    | some s =>
      match prefStmts inst assistant (index + 1) rest with
      | none => none
      | some ss => some (s :: ss)

/-- The consecutive-group weak constraints of one assistant: the loop
`for group in instance.groups: if group.pred: ...` of `make_program`. -/
def consecStmtsFor (inst : Instance) (assistant : Assistant) : List Stmt :=
  inst.groups.filterMap (fun group =>
    match group.pred with
    | some p =>
      some (Stmt.softConsec inst.penalty_consecutive assistant.index p group.index)
    | none => none)

/-- The statements emitted for one assistant inside the main loop of
`make_program`: its cardinality constraint, its preference weak constraints,
and its consecutive-group weak constraints, in emission order. -/
def assistantStmts (inst : Instance) (assistant : Assistant) :
    Option (List Stmt) :=
  match prefStmts inst assistant 0 inst.groups with
  | none => none
  | some ps =>
    some (Stmt.cardA assistant.min assistant.index assistant.max ::
          (ps ++ consecStmtsFor inst assistant))

/-- Embedding of `make_program` from `assistant_scheduler.py`: assistant facts,
group facts, the per-assistant blocks, and finally the group cardinality
constraints, in the order the Python code appends them. The result is `none`
exactly when some preference lookup is out of range or hits the
`assert False` branch. -/
def makeProgram (inst : Instance) : Option (List Stmt) :=
  match inst.assistants.mapM (assistantStmts inst) with
  | none => none
  | some perAssistant =>
    some (inst.assistants.map (fun a => Stmt.factA a.index)
          ++ inst.groups.map (fun g => Stmt.factG g.index)
          ++ perAssistant.flatten
          ++ inst.groups.map (fun g => Stmt.cardG g.min g.index g.max))

example :
    makeProgram
      { penalty_bad_time := 1000, penalty_ok_time := 100,
        penalty_good_time := 0, penalty_consecutive := 10,
        groups := [{ name := "G1", index := 0, min := 1, max := 1, pred := none },
                   { name := "G2", index := 1, min := 1, max := 1, pred := some 0 }],
        assistants := [{ name := "A1", index := 0, prefs := ['2', '1'],
                         min := 1, max := 2 }] } =
    some [Stmt.factA 0, Stmt.factG 0, Stmt.factG 1,
          Stmt.cardA 1 0 2, Stmt.softPref 0 0 0, Stmt.softPref 100 0 1,
          Stmt.softConsec 10 0 0 1,
          Stmt.cardG 1 0 1, Stmt.cardG 1 1 1] := by decide

/-!
Semantics of the generated ASP program over an assignment.  An assignment is
a set of `in(a,g)` atoms, represented by its characteristic function
`S : Nat → Nat → Bool`.  Weak constraints (`softPref`, `softConsec`) carry a
weight and are violated when their body holds; the cardinality rules are the
hard constraints, whose bodies `{in(a,G):group(G)}` and `{in(A,g):a(A)}`
ground over the `group(...)` and `a(...)` facts of the same program.
-/

/-- The weight of a statement: the cost annotation of a weak constraint,
`0` for facts and hard rules. -/
def Stmt.weight : Stmt → Int
  | .softPref w _ _ => w
  | .softConsec w _ _ _ => w
  | _ => 0

/-- Whether a weak constraint's body holds in the assignment `S`:
`softPref _ a g` is violated when `in(a,g)` holds, `softConsec _ a p g` when
both `in(a,p)` and `in(a,g)` hold.  Facts and hard rules are never counted. -/
def Stmt.violatedBy (S : Nat → Nat → Bool) : Stmt → Bool
  | .softPref _ a g => S a g
  | .softConsec _ a p g => S a p && S a g
  | _ => false

/-- The cost a single statement contributes under assignment `S`. -/
def Stmt.costOf (S : Nat → Nat → Bool) (s : Stmt) : Int :=
  if s.violatedBy S then s.weight else 0

/-- The total weight of the violated soft constraints of a program. -/
def totalCost (prog : List Stmt) (S : Nat → Nat → Bool) : Int :=
  (prog.map (Stmt.costOf S)).sum

/-- The arguments of the `a(...)` facts of a program. -/
def aFactsOf (prog : List Stmt) : List Nat :=
  prog.filterMap (fun s => match s with | .factA a => some a | _ => none)

/-- The arguments of the `group(...)` facts of a program. -/
def gFactsOf (prog : List Stmt) : List Nat :=
  prog.filterMap (fun s => match s with | .factG g => some g | _ => none)

/-- Whether assignment `S` satisfies one statement as a hard constraint.
Only the cardinality rules restrict `S`; facts and weak constraints are
hard-satisfied by every assignment. -/
def Stmt.hardOK (aFacts gFacts : List Nat) (S : Nat → Nat → Bool) : Stmt → Bool
  | .cardA mn a mx =>
    decide (mn ≤ (gFacts.countP (fun g => S a g) : Int) ∧
            (gFacts.countP (fun g => S a g) : Int) ≤ mx)
  | .cardG mn g mx =>
    decide (mn ≤ (aFacts.countP (fun a => S a g) : Int) ∧
            (aFacts.countP (fun a => S a g) : Int) ≤ mx)
  | _ => true

/-- Whether assignment `S` satisfies all hard constraints of a program. -/
def hardSat (prog : List Stmt) (S : Nat → Nat → Bool) : Bool :=
  prog.all (Stmt.hardOK (aFactsOf prog) (gFactsOf prog) S)

/-- Number of assigned (assistant, group) pairs of the instance whose
preference symbol (the assistant's preference character at the group's index)
equals `c`. -/
def countPref (inst : Instance) (S : Nat → Nat → Bool) (c : Char) : Nat :=
  (inst.assistants.map (fun a =>
    inst.groups.countP (fun g =>
      S a.index g.index && (a.prefs.getD g.index '?' == c)))).sum

/-- Number of (predecessor group, group) pairs of the instance both assigned
to the same assistant. -/
def countConsec (inst : Instance) (S : Nat → Nat → Bool) : Nat :=
  (inst.assistants.map (fun a =>
    inst.groups.countP (fun g =>
      match g.pred with
      | some p => S a.index p && S a.index g.index
      | none => false))).sum

/-!
Well-formedness of a loaded instance.  `Instance.load` builds groups and
assistants with `enumerate`, so the `index` field of each entity equals its
position in its list; predecessor links are resolved against the group list;
and the semantic validation enforces the bounds, preference and aggregate
conditions below.
-/

/-- Each entity's `index` field equals its position in its list, as
established by the loaders via `enumerate`. -/
def Instance.wellIndexed (inst : Instance) : Prop :=
  (∀ i (h : i < inst.assistants.length), (inst.assistants.get ⟨i, h⟩).index = i) ∧
  (∀ i (h : i < inst.groups.length), (inst.groups.get ⟨i, h⟩).index = i)

/-- Every predecessor link points into the group list, as established by the
predecessor-resolution pass of the loaders. -/
def Instance.predsOk (inst : Instance) : Prop :=
  ∀ g ∈ inst.groups, ∀ p, g.pred = some p → p < inst.groups.length

/-- Every assistant has one preference character per group and all characters
are legal, as enforced by the semantic validation of `Instance.load`. -/
def Instance.prefsOk (inst : Instance) : Prop :=
  ∀ a ∈ inst.assistants,
    a.prefs.length = inst.groups.length ∧ ∀ c ∈ a.prefs, c ∈ PREF_CHARS

/-!
Embedding of the semantic validation at the end of `Instance.load`
(`instance.py`).  The `error` callback aborts (it is `ArgumentParser.error`),
so the validation is modelled as returning the first error message raised, or
`none` when the instance is accepted.
-/

/-- The non-negativity check of the four penalties in `Instance.load`. -/
def penaltiesError (inst : Instance) : Option String :=
  if inst.penalty_bad_time < 0 then
    some "The penalty \"penalty_bad_time\" must be non-negative"
  else if inst.penalty_ok_time < 0 then
    some "The penalty \"penalty_ok_time\" must be non-negative"
  else if inst.penalty_good_time < 0 then
    some "The penalty \"penalty_good_time\" must be non-negative"
  else if inst.penalty_consecutive < 0 then
    some "The penalty \"penalty_consecutive\" must be non-negative"
  else none

/-- The per-group bound check `0 <= min <= max` of `Instance.load`. -/
def groupError (group : Group) : Option String :=
  if ¬(0 ≤ group.min ∧ group.min ≤ group.max) then
    some ("Group \"" ++ group.name ++ "\": 0 <= \"min\" <= \"max\" does not hold")
  else none

/-- The first group error raised by the group loop of `Instance.load`. -/
def groupsError (inst : Instance) : Option String :=
  (inst.groups.filterMap groupError).head?

/-- The per-assistant checks of `Instance.load`, in source order: bounds,
preference-string length, preference characters. -/
def assistantError (nofGroups : Nat) (assistant : Assistant) : Option String :=
  if ¬(0 ≤ assistant.min ∧ assistant.min ≤ assistant.max) then
    some ("Assistant \"" ++ assistant.name ++
          "\": 0 <= \"min\" <= \"max\" does not hold")
  else if assistant.prefs.length ≠ nofGroups then
    some ("Assistant \"" ++ assistant.name ++
          "\": wrong numberof group preferences")
  else
    match assistant.prefs.find? (fun c => !(PREF_CHARS.contains c)) with
    | some c =>
      some ("Assistant \"" ++ assistant.name ++ "\": illegal character \"" ++
            String.mk [c] ++ "\" in the preferences")
    | none => none

/-- The first assistant error raised by the assistant loop of
`Instance.load`. -/
def assistantsError (inst : Instance) : Option String :=
  (inst.assistants.filterMap (assistantError inst.groups.length)).head?

/-- The two aggregate feasibility checks at the end of `Instance.load`:
`max_available_personnel < min_personnel` and
`min_available_personnel > max_personnel`. -/
def aggregateError (inst : Instance) : Option String :=
  let min_personnel := (inst.groups.map Group.min).sum
  let max_personnel := (inst.groups.map Group.max).sum
  let min_available_personnel := (inst.assistants.map Assistant.min).sum
  let max_available_personnel := (inst.assistants.map Assistant.max).sum
  if max_available_personnel < min_personnel then
    some "Not enough assistant shifts available"
  else if min_available_personnel > max_personnel then
    some "Not enough group shifts so that minimum amount of shifts of all assistants can be filled"
  else none

/-- The whole semantic validation of `Instance.load` (lines 190–235 of
`instance.py`): the first invocation of the error callback, or `none` when
the instance is accepted. -/
def semanticValidation (inst : Instance) : Option String :=
  penaltiesError inst <|> groupsError inst <|> assistantsError inst <|>
    aggregateError inst

/-!
Embedding of the solving and result-interpretation part of `main`
(`assistant_scheduler.py`, the solve loop and lines 112–144).  A clingo model
is abstracted as the list of its costs (`model.cost` is a list in clingo) and
the set of its `in(a,g)` atoms, represented as the list enumerating them in
the order `best_model.symbols(atoms=True)` yields them.
-/

/-- A model returned by the solver: its cost vector and its `in` atoms in
enumeration order. -/
structure Model where
  cost : List Int
  atoms : List (Nat × Nat)
deriving Repr, DecidableEq

/-- Python's `<` on lists of integers (lexicographic, a proper prefix is
smaller), used by `model.cost < best_model.cost`. -/
def pyListLt : List Int → List Int → Bool
  | [], [] => false
  | [], _ :: _ => true
  | _ :: _, [] => false
  | x :: xs, y :: ys => if x < y then true else if y < x then false else pyListLt xs ys

/-- The model-selection loop of `main`: keep the first model, replace it
whenever a later model has strictly smaller cost. -/
def bestModelOf (yielded : List Model) : Option Model :=
  yielded.foldl (fun best model =>
    match best with
    | none => some model
    | some b => if pyListLt model.cost b.cost then some model else some b) none

/-- The schedule built by the atom loop of `main`: the assistants added to
`schedule[key]`, in atom-enumeration order.  An atom `(a, g)` is added under
the key `instance.groups[g].index`. -/
def schedOf (inst : Instance) (atoms : List (Nat × Nat)) (key : Nat) :
    List Assistant :=
  atoms.filterMap (fun p =>
    match inst.assistants.get? p.1, inst.groups.get? p.2 with
    | some a, some g => if g.index = key then some a else none
    | _, _ => none)

/-- The preference penalty lines contributed by one atom `(a, g)` in the atom
loop of `main`: the lookups `instance.assistants[a]`, `instance.groups[g]`
and `assistant.prefs[group.index]` (out of range being an `IndexError`,
embedded as `none`), then one line for a BAD or OK preference and no line
otherwise. -/
def prefLineFor (inst : Instance) (p : Nat × Nat) : Option (List String) :=
  match inst.assistants.get? p.1, inst.groups.get? p.2 with
  | some assistant, some group =>
    match assistant.prefs.get? group.index with
    | some pref =>
      if pref = PREF_BAD then
        some ["\"" ++ assistant.name ++ "\" on \"" ++ group.name ++ "\": bad time"]
      else if pref = PREF_OK then
        some ["\"" ++ assistant.name ++ "\" on \"" ++ group.name ++ "\": ok time"]
      else some []
    | none => none
  | _, _ => none

/-- All preference penalty lines of the atom loop of `main`, in
atom-enumeration order. -/
def prefPenalties (inst : Instance) (atoms : List (Nat × Nat)) :
    Option (List String) :=
  match atoms.mapM (prefLineFor inst) with
  | none => none
  | some ls => some ls.flatten

/-- The consecutive-group penalty lines of `main`: for each group with a
predecessor, in group order, one line per assistant of
`schedule[group.pred.index]` that also occurs in `schedule[group.index]`.
The predecessor object `group.pred` of the Python code is recovered from the
stored predecessor index; a dangling index (impossible for a loaded instance)
is embedded as `none`. -/
def consecPenalties (inst : Instance) (sched : Nat → List Assistant) :
    Option (List String) :=
  match inst.groups.mapM (fun group =>
    match group.pred with
    | none => some []
    | some p =>
      match inst.groups.get? p with
      | none => none
      | some predGroup =>
        some ((sched predGroup.index).filterMap (fun assistant =>
          if assistant ∈ sched group.index then
            some ("\"" ++ assistant.name ++ "\" on \"" ++ predGroup.name ++
                  "\" and \"" ++ group.name ++ "\": consecutive groups")
          else none))) with
  | none => none
  | some ls => some ls.flatten

/-- The non-optimality list produced by `main` for a model whose `in` atoms
are enumerated by `atoms`: the preference lines of the atom loop followed by
the consecutive-group lines. -/
def interpretPenalties (inst : Instance) (atoms : List (Nat × Nat)) :
    Option (List String) :=
  match prefPenalties inst atoms with
  | none => none
  | some pp =>
    match consecPenalties inst (schedOf inst atoms) with
    | none => none
    | some cp => some (pp ++ cp)

/-- The interpretation stage of `main` in `assistant_scheduler.py` after the
solve loop: it starts with `best_model.symbols(atoms=True)` without testing
`best_model` for `None`, so when the solve loop found no model the attribute
access on `None` raises `AttributeError`, embedded as `Except.error`. -/
def mainInterpretStage (inst : Instance) (best_model : Option Model) :
    Except String (List String) :=
  match best_model with
  | none => Except.error "AttributeError: NoneType object has no attribute symbols"
  | some model =>
    match interpretPenalties inst model.atoms with
    | none => Except.error "IndexError"
    | some penalties => Except.ok penalties

/-- The zero-model branch of the old script `assistant-scheduler.py`
(lines 320–322): when the solver output reported no models, print the
no-schedule message and exit with status 0, producing no penalty list. -/
def oldMainNoModelsReport (nofModels : Nat) : Option (String × Nat) :=
  if nofModels = 0 then
    some ("No scheduling found within time limits. Perhaps not enough assistants available?", 0)
  else none

/-!
Embedding of the `json` serializers of `instance.py`.  Note that
`Group.json` interpolates the group's name into the output without
surrounding quotation marks (`"name": {self.name}`), unlike the predecessor
name and the assistant name, which are quoted.
-/

/-- Embedding of `Group.json`: the predecessor object of the Python code is
recovered from the stored predecessor index. -/
def Group.json (inst : Instance) (group : Group) : String :=
  let pred : String :=
    match group.pred with
    | some p =>
      match inst.groups.get? p with
      | some predGroup => ", \"pred\": \"" ++ predGroup.name ++ "\""
      | none => ""
    | none => ""
  "\x7b\"name\": " ++ group.name ++ ", \"min\": " ++ toString group.min ++
    ", \"max\": " ++ toString group.max ++ pred ++ "\x7d"

/-- Embedding of `Assistant.json`. -/
def Assistant.json (assistant : Assistant) : String :=
  "\"" ++ assistant.name ++ "\": \x7b\"prefs\": \"" ++
    String.mk assistant.prefs ++ "\", \"min\": " ++ toString assistant.min ++
    ", \"max\": " ++ toString assistant.max ++ "\x7d"

/-- Embedding of `Instance.json`: the penalties, the group list rendered by
`Group.json`, and the assistant map rendered by `Assistant.json`. -/
def Instance.json (inst : Instance) : String :=
  "\x7b\n  \"penalty_bad_time\": " ++ toString inst.penalty_bad_time ++
  ",\n  \"penalty_ok_time\":  " ++ toString inst.penalty_ok_time ++
  ",\n  \"penalty_good_time\":  " ++ toString inst.penalty_good_time ++
  ",\n  \"penalty_consecutive\":  " ++ toString inst.penalty_consecutive ++
  ",\n  \"groups\": [\n" ++
  String.intercalate ",\n"
    (inst.groups.map (fun g => "    " ++ Group.json inst g)) ++ "\n" ++
  "  ],\n" ++
  "  \"assistants\": \x7b\n" ++
  String.intercalate ",\n"
    (inst.assistants.map (fun a => "    " ++ a.json)) ++ "\n" ++
  "  \x7d\n" ++
  "\x7d"

/-- The characters with which a JSON value may begin, from the JSON grammar
(RFC 8259): a string, a number, an object, an array, or one of the literals
`true`, `false`, `null`. -/
def jsonValueStartChars : List Char :=
  ['\"', '-', '0', '1', '2', '3', '4', '5', '6', '7', '8', '9',
   '\x7b', '[', 't', 'f', 'n']

/-!
Characterizations used in the theorem statements below.  These definitions
restate, in direct form, what the program produced by `make_program` and the
penalty list produced by `main` are claimed to contain; the theorems prove
that the embedded source functions agree with them.
-/

/-- The penalty attached to a preference character: `penalty_bad_time` for
BAD, `penalty_ok_time` for OK, `penalty_good_time` for GOOD. -/
def penaltyFor (inst : Instance) (c : Char) : Int :=
  if c = PREF_BAD then inst.penalty_bad_time
  else if c = PREF_OK then inst.penalty_ok_time
  else inst.penalty_good_time

/-- Direct form of the preference weak constraints of one assistant: one
`softPref` per group, in group-index order, weighted by the penalty of the
assistant's preference character at the group's index. -/
def prefStmtsSpec (inst : Instance) (a : Assistant) : List Stmt :=
  inst.groups.map (fun g =>
    Stmt.softPref (penaltyFor inst (a.prefs.getD g.index '?')) a.index g.index)

/-- Direct form of the block of statements emitted for one assistant. -/
def assistantBlockSpec (inst : Instance) (a : Assistant) : List Stmt :=
  Stmt.cardA a.min a.index a.max ::
    (prefStmtsSpec inst a ++ consecStmtsFor inst a)

/-- Direct form of the whole program produced by `make_program`: assistant
facts in index order, group facts in index order, the per-assistant blocks in
assistant-index order, then the group cardinality constraints in group-index
order. -/
def programSpec (inst : Instance) : List Stmt :=
  inst.assistants.map (fun a => Stmt.factA a.index)
  ++ inst.groups.map (fun g => Stmt.factG g.index)
  ++ (inst.assistants.map (assistantBlockSpec inst)).flatten
  ++ inst.groups.map (fun g => Stmt.cardG g.min g.index g.max)

/-- The preference character of an assigned pair (`'?'` when a lookup is out
of range, which the theorems' hypotheses exclude). -/
def prefCharAt (inst : Instance) (p : Nat × Nat) : Char :=
  match inst.assistants.get? p.1, inst.groups.get? p.2 with
  | some a, some g => a.prefs.getD g.index '?'
  | _, _ => '?'

/-- Direct form of the explanatory line of one assigned pair: one line for a
BAD or OK preference, no line for a GOOD preference. -/
def prefLineOf (a : Assistant) (g : Group) : Option String :=
  if a.prefs.getD g.index '?' = PREF_BAD then
    some ("\"" ++ a.name ++ "\" on \"" ++ g.name ++ "\": bad time")
  else if a.prefs.getD g.index '?' = PREF_OK then
    some ("\"" ++ a.name ++ "\" on \"" ++ g.name ++ "\": ok time")
  else none

/-- Direct form of the preference part of the non-optimality list: one line
per BAD- or OK-preference assigned pair, in the enumeration order of the
assignment. -/
def prefLinesSpec (inst : Instance) (atoms : List (Nat × Nat)) : List String :=
  atoms.filterMap (fun p =>
    match inst.assistants.get? p.1, inst.groups.get? p.2 with
    | some a, some g => prefLineOf a g
    | _, _ => none)

/-- Direct form of the consecutive-group part of the non-optimality list:
groups in list order, and for each group with a predecessor one line per
assistant scheduled in both the predecessor and the group, in the order of
the predecessor's schedule. -/
def consecLinesSpec (inst : Instance) (atoms : List (Nat × Nat)) : List String :=
  (inst.groups.map (fun group =>
    match group.pred with
    | none => []
    | some p =>
      match inst.groups.get? p with
      | none => []
      | some predGroup =>
        (schedOf inst atoms predGroup.index).filterMap (fun assistant =>
          if assistant ∈ schedOf inst atoms group.index then
            some ("\"" ++ assistant.name ++ "\" on \"" ++ predGroup.name ++
                  "\" and \"" ++ group.name ++ "\": consecutive groups")
          else none))).flatten

/-!
Concrete instances used by the witnesses and counterexamples.
-/

/-- Group `G1` of the specification's scenario instance. -/
def sampleG1 : Group :=
  { name := "G1", index := 0, min := 1, max := 2, pred := none }

/-- Group `G2` of the specification's scenario instance; its predecessor is
`G1`. -/
def sampleG2 : Group :=
  { name := "G2", index := 1, min := 1, max := 2, pred := some 0 }

/-- Assistant `A1` of the specification's scenario instance. -/
def sampleA1 : Assistant :=
  { name := "A1", index := 0, prefs := ['2', '1'], min := 1, max := 2 }

/-- Assistant `A2` of the specification's scenario instance. -/
def sampleA2 : Assistant :=
  { name := "A2", index := 1, prefs := ['1', '2'], min := 1, max := 1 }

/-- The scenario instance of the specification: two groups `G1`, `G2` with
`G2.pred = G1`, both with bounds 1–2, assistant `A1` with preferences `"21"`
and bounds 1–2, assistant `A2` with preferences `"12"` and bounds 1–1, and
the default penalties. -/
def sampleInst : Instance :=
  { penalty_bad_time := 1000, penalty_ok_time := 100,
    penalty_good_time := 0, penalty_consecutive := 10,
    groups := [sampleG1, sampleG2],
    assistants := [sampleA1, sampleA2] }

/-- An assignment for `sampleInst`: `A1` on `G1`, `A2` on `G2`. -/
def sampleS : Nat → Nat → Bool :=
  fun a g => (a == 0 && g == 0) || (a == 1 && g == 1)

/-- A boundary instance: one group requiring at least one assistant, one
assistant with `max = 0` (and legal preferences), default penalties. -/
def boundaryInst : Instance :=
  { penalty_bad_time := 1000, penalty_ok_time := 100,
    penalty_good_time := 0, penalty_consecutive := 10,
    groups := [{ name := "G1", index := 0, min := 1, max := 1, pred := none }],
    assistants := [{ name := "A1", index := 0, prefs := ['2'],
                     min := 0, max := 0 }] }

/-- An instance whose single assistant finds both groups BAD, used to show
that the non-optimality list depends on the atom enumeration order. -/
def orderInst : Instance :=
  { penalty_bad_time := 1000, penalty_ok_time := 100,
    penalty_good_time := 0, penalty_consecutive := 10,
    groups := [{ name := "G1", index := 0, min := 0, max := 1, pred := none },
               { name := "G2", index := 1, min := 0, max := 1, pred := none }],
    assistants := [{ name := "A1", index := 0, prefs := [' ', ' '],
                     min := 0, max := 2 }] }

/-- A group with a typical non-numeric name and default bounds, as built by
the loader for a loaded instance. -/
def jsonGroup : Group :=
  { name := "G1", index := 0, min := 1, max := 1, pred := none }

/-- An instance holding `jsonGroup`. -/
def jsonInst : Instance :=
  { penalty_bad_time := 1000, penalty_ok_time := 100,
    penalty_good_time := 0, penalty_consecutive := 10,
    groups := [jsonGroup], assistants := [] }

/-!
General list lemmas.
-/

lemma mapM_eq_map_of_some {α β : Type} (f : α → Option β) (g : α → β) :
    ∀ (l : List α), (∀ x ∈ l, f x = some (g x)) → l.mapM f = some (l.map g) := by
  intro l
  induction l with
  | nil => intro _; rfl
  | cons x xs ih =>
    intro h
    rw [List.mapM_cons, h x (by simp), ih (fun y hy => h y (by simp [hy]))]
    rfl

lemma map_index_eq_range {α : Type} (idx : α → Nat) (l : List α)
    (h : ∀ (j : Nat) (hj : j < l.length), idx (l.get ⟨j, hj⟩) = j) :
    l.map idx = List.range l.length := by
  apply List.ext_get
  · simp
  · intro n h1 h2
    simp only [List.get_map, List.get_range]
    exact h n (by simpa using h1)

lemma countP_index_eq_one {α : Type} (idx : α → Nat) (l : List α)
    (h : ∀ (j : Nat) (hj : j < l.length), idx (l.get ⟨j, hj⟩) = j)
    (i : Nat) (hi : i < l.length) :
    l.countP (fun x => idx x == i) = 1 := by
  have h1 : l.countP (fun x => idx x == i) = (l.map idx).countP (fun n => n == i) := by
    rw [List.countP_map]; rfl
  rw [h1, map_index_eq_range idx l h]
  exact List.count_eq_one_of_mem (List.nodup_range _) (List.mem_range.mpr hi)

lemma index_lt_of_mem {α : Type} (idx : α → Nat) (l : List α)
    (h : ∀ (j : Nat) (hj : j < l.length), idx (l.get ⟨j, hj⟩) = j)
    {x : α} (hx : x ∈ l) : idx x < l.length := by
  obtain ⟨⟨j, hj⟩, rfl⟩ := List.mem_iff_get.mp hx
  rw [h j hj]
  exact hj

lemma filter_eq_singleton {α : Type} {l : List α} {p : α → Bool} {x : α}
    (hcount : l.countP p = 1) (hmem : x ∈ l) (hx : p x = true) :
    l.filter p = [x] := by
  have hlen : (l.filter p).length = 1 := by
    rw [← List.countP_eq_length_filter]; exact hcount
  obtain ⟨a, ha⟩ := List.length_eq_one.mp hlen
  have hxf : x ∈ l.filter p := List.mem_filter.mpr ⟨hmem, hx⟩
  rw [ha] at hxf
  simp only [List.mem_singleton] at hxf
  rw [ha, hxf]

lemma sum_map_ite {α : Type} (p : α → Bool) (l : List α) :
    (l.map (fun x => if p x then (1 : Nat) else 0)).sum = l.countP p := by
  induction l with
  | nil => rfl
  | cons x xs ih =>
    simp only [List.map_cons, List.sum_cons, List.countP_cons, ih]
    omega

lemma countP_filterMap' {α β : Type} (p : β → Bool) (f : α → Option β) :
    ∀ l : List α, (l.filterMap f).countP p
      = l.countP (fun x => match f x with | some y => p y | none => false) := by
  intro l
  induction l with
  | nil => rfl
  | cons x xs ih =>
    cases hfx : f x with
    | none => simp [List.filterMap_cons, hfx, List.countP_cons, ih]
    | some y => simp [List.filterMap_cons, hfx, List.countP_cons, ih]

/-!
The explicit form of the program produced by `makeProgram` on a well-formed
instance.
-/

lemma prefStmtFor_eq_some (inst : Instance) (a : Assistant) (k : Nat) (g : Group)
    (c : Char) (hc : a.prefs.get? k = some c) (hmem : c ∈ PREF_CHARS) :
    prefStmtFor inst a k g = some (Stmt.softPref (penaltyFor inst c) a.index g.index) := by
  simp only [PREF_CHARS, List.mem_cons, List.mem_singleton, List.not_mem_nil, or_false] at hmem
  unfold prefStmtFor penaltyFor
  rw [hc]
  rcases hmem with h | h | h <;> subst h <;> simp [PREF_BAD, PREF_OK, PREF_GOOD]

lemma prefStmts_eq (inst : Instance) (a : Assistant) :
    ∀ (k : Nat) (gs : List Group),
      (∀ (j : Nat) (hj : j < gs.length), (gs.get ⟨j, hj⟩).index = k + j) →
      (∀ (j : Nat), j < gs.length → ∃ c, a.prefs.get? (k + j) = some c ∧ c ∈ PREF_CHARS) →
      prefStmts inst a k gs = some (gs.map (fun g =>
        Stmt.softPref (penaltyFor inst (a.prefs.getD g.index '?')) a.index g.index)) := by
  intro k gs
  induction gs generalizing k with
  | nil => intro _ _; rfl
  | cons g rest ih =>
    intro hidx hpref
    obtain ⟨c, hc, hcm⟩ := hpref 0 (by simp)
    rw [Nat.add_zero] at hc
    have hg : g.index = k := by
      have h0 := hidx 0 (by simp)
      simpa using h0
    have hfor := prefStmtFor_eq_some inst a k g c hc hcm
    have hrest := ih (k + 1)
      (fun j hj => by
        have h1 := hidx (j + 1) (Nat.succ_lt_succ hj)
        have h2 : ((g :: rest).get ⟨j + 1, Nat.succ_lt_succ hj⟩).index
            = (rest.get ⟨j, hj⟩).index := rfl
        rw [h2] at h1
        omega)
      (fun j hj => by
        have h1 := hpref (j + 1) (Nat.succ_lt_succ hj)
        have h2 : k + (j + 1) = k + 1 + j := by omega
        rw [h2] at h1
        exact h1)
    have hgd : a.prefs.getD g.index '?' = c := by
      rw [hg, List.getD_eq_get?, hc]
      rfl
    unfold prefStmts
    rw [hfor, hrest]
    simp only [List.map_cons]
    rw [hgd]

lemma assistantStmts_eq (inst : Instance) (hwi : inst.wellIndexed)
    (a : Assistant)
    (hlen : a.prefs.length = inst.groups.length)
    (hchars : ∀ c ∈ a.prefs, c ∈ PREF_CHARS) :
    assistantStmts inst a = some (assistantBlockSpec inst a) := by
  have h := prefStmts_eq inst a 0 inst.groups
    (fun j hj => by rw [hwi.2 j hj, Nat.zero_add])
    (fun j hj => by
      have hj' : j < a.prefs.length := by rw [hlen]; exact hj
      exact ⟨a.prefs.get ⟨j, hj'⟩,
        by rw [Nat.zero_add]; exact List.get?_eq_get hj',
        hchars _ (List.get_mem _ _ _)⟩)
  unfold assistantStmts
  rw [h]
  rfl

lemma makeProgram_explicit (inst : Instance) (hwi : inst.wellIndexed)
    (hpr : inst.prefsOk) :
    makeProgram inst = some (programSpec inst) := by
  unfold makeProgram
  rw [mapM_eq_map_of_some (assistantStmts inst) (assistantBlockSpec inst)
      inst.assistants
      (fun a ha => assistantStmts_eq inst hwi a (hpr a ha).1 (hpr a ha).2)]
  rfl

/-!
Totality of `makeProgram` on instances with validated preferences.
-/

lemma prefStmts_isSome (inst : Instance) (a : Assistant) :
    ∀ (k : Nat) (gs : List Group),
      (∀ (j : Nat), j < gs.length → ∃ c, a.prefs.get? (k + j) = some c ∧ c ∈ PREF_CHARS) →
      (prefStmts inst a k gs).isSome := by
  intro k gs
  induction gs generalizing k with
  | nil => intro _; rfl
  | cons g rest ih =>
    intro hpref
    obtain ⟨c, hc, hcm⟩ := hpref 0 (by simp)
    rw [Nat.add_zero] at hc
    have hfor := prefStmtFor_eq_some inst a k g c hc hcm
    have hrest := ih (k + 1) (fun j hj => by
      have h1 := hpref (j + 1) (Nat.succ_lt_succ hj)
      have h2 : k + (j + 1) = k + 1 + j := by omega
      rw [h2] at h1
      exact h1)
    obtain ⟨ps, hps⟩ := Option.isSome_iff_exists.mp hrest
    unfold prefStmts
    rw [hfor, hps]
    rfl

lemma assistantStmts_isSome (inst : Instance) (a : Assistant)
    (hlen : a.prefs.length = inst.groups.length)
    (hchars : ∀ c ∈ a.prefs, c ∈ PREF_CHARS) :
    (assistantStmts inst a).isSome := by
  have h := prefStmts_isSome inst a 0 inst.groups
    (fun j hj => by
      have hj' : j < a.prefs.length := by rw [hlen]; exact hj
      exact ⟨a.prefs.get ⟨j, hj'⟩,
        by rw [Nat.zero_add]; exact List.get?_eq_get hj',
        hchars _ (List.get_mem _ _ _)⟩)
  obtain ⟨ps, hps⟩ := Option.isSome_iff_exists.mp h
  unfold assistantStmts
  rw [hps]
  rfl

lemma mapM_isSome_of_forall {α β : Type} (f : α → Option β) :
    ∀ (l : List α), (∀ x ∈ l, (f x).isSome) → (l.mapM f).isSome := by
  intro l
  induction l with
  | nil => intro _; rfl
  | cons x xs ih =>
    intro h
    obtain ⟨y, hy⟩ := Option.isSome_iff_exists.mp (h x (by simp))
    obtain ⟨ys, hys⟩ := Option.isSome_iff_exists.mp (ih (fun z hz => h z (by simp [hz])))
    rw [List.mapM_cons, hy, hys]
    rfl

/-!
Cost of the generated program under an assignment.
-/

lemma costOf_softPref (S : Nat → Nat → Bool) (w : Int) (a g : Nat) :
    Stmt.costOf S (Stmt.softPref w a g) = if S a g then w else 0 := rfl

lemma costOf_softConsec (S : Nat → Nat → Bool) (w : Int) (a p g : Nat) :
    Stmt.costOf S (Stmt.softConsec w a p g) = if S a p && S a g then w else 0 := rfl

lemma sum_cost_of_map_zero {α : Type} (S : Nat → Nat → Bool) (f : α → Stmt)
    (l : List α) (h : ∀ x, Stmt.costOf S (f x) = 0) :
    ((l.map f).map (Stmt.costOf S)).sum = 0 := by
  apply List.sum_eq_zero
  intro x hx
  rw [List.map_map, List.mem_map] at hx
  obtain ⟨a, _, rfl⟩ := hx
  exact h a

lemma prefSegment_cost (inst : Instance) (S : Nat → Nat → Bool) (a : Assistant) :
    ∀ (gs : List Group), (∀ g ∈ gs, a.prefs.getD g.index '?' ∈ PREF_CHARS) →
      ((gs.map (fun g =>
          Stmt.softPref (penaltyFor inst (a.prefs.getD g.index '?')) a.index g.index)).map
        (Stmt.costOf S)).sum
      = inst.penalty_bad_time *
          (gs.countP (fun g => S a.index g.index && (a.prefs.getD g.index '?' == PREF_BAD)) : Int)
      + inst.penalty_ok_time *
          (gs.countP (fun g => S a.index g.index && (a.prefs.getD g.index '?' == PREF_OK)) : Int)
      + inst.penalty_good_time *
          (gs.countP (fun g => S a.index g.index && (a.prefs.getD g.index '?' == PREF_GOOD)) : Int) := by
  intro gs
  induction gs with
  | nil => simp
  | cons g rest ih =>
    intro h
    have hc := h g (by simp)
    have hrest := ih (fun g' hg' => h g' (by simp [hg']))
    simp only [PREF_CHARS, List.mem_cons, List.mem_singleton, List.not_mem_nil, or_false] at hc
    simp only [List.map_cons, List.sum_cons, List.countP_cons, hrest, costOf_softPref]
    rcases hc with hc | hc | hc <;> rw [hc] <;>
      by_cases hS : S a.index g.index = true <;>
      simp [hS, penaltyFor, PREF_BAD, PREF_OK, PREF_GOOD] <;> push_cast <;> ring

lemma consecSegment_cost (inst : Instance) (S : Nat → Nat → Bool) (a : Assistant) :
    ∀ (gs : List Group),
      ((gs.filterMap (fun group => match group.pred with
          | some p => some (Stmt.softConsec inst.penalty_consecutive a.index p group.index)
          | none => none)).map (Stmt.costOf S)).sum
      = inst.penalty_consecutive *
          (gs.countP (fun g => match g.pred with
            | some p => S a.index p && S a.index g.index
            | none => false) : Int) := by
  intro gs
  induction gs with
  | nil => simp
  | cons g rest ih =>
    cases hp : g.pred with
    | none =>
      simp only [List.filterMap_cons, hp, List.countP_cons, ih]
      simp
    | some p =>
      simp only [List.filterMap_cons, hp, List.map_cons, List.sum_cons,
        List.countP_cons, ih, costOf_softConsec]
      by_cases hS : (S a.index p && S a.index g.index) = true <;>
        simp [hS] <;> push_cast <;> ring

lemma getD_mem_prefChars (inst : Instance) (hwi : inst.wellIndexed)
    (hpr : inst.prefsOk) {a : Assistant} (ha : a ∈ inst.assistants)
    {g : Group} (hg : g ∈ inst.groups) :
    a.prefs.getD g.index '?' ∈ PREF_CHARS := by
  have hlt : g.index < inst.groups.length := index_lt_of_mem _ _ hwi.2 hg
  have hlt' : g.index < a.prefs.length := by rw [(hpr a ha).1]; exact hlt
  rw [List.getD_eq_get?, List.get?_eq_get hlt']
  exact (hpr a ha).2 _ (List.get_mem _ _ _)

lemma blockCost (inst : Instance) (S : Nat → Nat → Bool) (a : Assistant)
    (h : ∀ g ∈ inst.groups, a.prefs.getD g.index '?' ∈ PREF_CHARS) :
    ((assistantBlockSpec inst a).map (Stmt.costOf S)).sum
      = inst.penalty_bad_time *
          (inst.groups.countP (fun g => S a.index g.index && (a.prefs.getD g.index '?' == PREF_BAD)) : Int)
      + inst.penalty_ok_time *
          (inst.groups.countP (fun g => S a.index g.index && (a.prefs.getD g.index '?' == PREF_OK)) : Int)
      + inst.penalty_good_time *
          (inst.groups.countP (fun g => S a.index g.index && (a.prefs.getD g.index '?' == PREF_GOOD)) : Int)
      + inst.penalty_consecutive *
          (inst.groups.countP (fun g => match g.pred with
            | some p => S a.index p && S a.index g.index
            | none => false) : Int) := by
  unfold assistantBlockSpec prefStmtsSpec consecStmtsFor
  rw [List.map_cons, List.sum_cons, List.map_append, List.sum_append,
    prefSegment_cost inst S a inst.groups h, consecSegment_cost inst S a inst.groups]
  have hcard : Stmt.costOf S (Stmt.cardA a.min a.index a.max) = 0 := rfl
  rw [hcard]
  ring

lemma sum_map_linear4 {α : Type} (c1 c2 c3 c4 : Int) (f1 f2 f3 f4 : α → Nat) :
    ∀ (l : List α),
      (l.map (fun a => c1 * (f1 a : Int) + c2 * (f2 a : Int)
        + c3 * (f3 a : Int) + c4 * (f4 a : Int))).sum
      = c1 * ((l.map f1).sum : Int) + c2 * ((l.map f2).sum : Int)
        + c3 * ((l.map f3).sum : Int) + c4 * ((l.map f4).sum : Int) := by
  intro l
  induction l with
  | nil => simp
  | cons x xs ih =>
    simp only [List.map_cons, List.sum_cons, ih]
    push_cast
    ring

lemma totalCost_programSpec (inst : Instance) (hwi : inst.wellIndexed)
    (hpr : inst.prefsOk) (S : Nat → Nat → Bool) :
    totalCost (programSpec inst) S
    = inst.penalty_bad_time * (countPref inst S PREF_BAD : Int)
    + inst.penalty_ok_time * (countPref inst S PREF_OK : Int)
    + inst.penalty_good_time * (countPref inst S PREF_GOOD : Int)
    + inst.penalty_consecutive * (countConsec inst S : Int) := by
  unfold totalCost programSpec
  rw [List.map_append, List.map_append, List.map_append,
    List.sum_append, List.sum_append, List.sum_append]
  rw [sum_cost_of_map_zero S (fun a => Stmt.factA a.index) inst.assistants (fun _ => rfl),
    sum_cost_of_map_zero S (fun g => Stmt.factG g.index) inst.groups (fun _ => rfl),
    sum_cost_of_map_zero S (fun g => Stmt.cardG g.min g.index g.max) inst.groups (fun _ => rfl)]
  rw [List.map_flatten, List.sum_flatten, List.map_map, List.map_map]
  have hpt : ∀ a ∈ inst.assistants,
      ((List.sum ∘ List.map (Stmt.costOf S)) ∘ assistantBlockSpec inst) a
      = inst.penalty_bad_time *
          (inst.groups.countP (fun g => S a.index g.index && (a.prefs.getD g.index '?' == PREF_BAD)) : Int)
      + inst.penalty_ok_time *
          (inst.groups.countP (fun g => S a.index g.index && (a.prefs.getD g.index '?' == PREF_OK)) : Int)
      + inst.penalty_good_time *
          (inst.groups.countP (fun g => S a.index g.index && (a.prefs.getD g.index '?' == PREF_GOOD)) : Int)
      + inst.penalty_consecutive *
          (inst.groups.countP (fun g => match g.pred with
            | some p => S a.index p && S a.index g.index
            | none => false) : Int) :=
    fun a ha => blockCost inst S a (fun g hg => getD_mem_prefChars inst hwi hpr ha hg)
  rw [List.map_congr_left hpt, sum_map_linear4]
  unfold countPref countConsec
  push_cast [Nat.cast_list_sum]
  ring

/-!
Occurrence counts of the cardinality and weak constraints in the generated
program.
-/

lemma countP_map_zero {α : Type} (f : α → Stmt) (p : Stmt → Bool) (l : List α)
    (h : ∀ x, p (f x) = false) : (l.map f).countP p = 0 := by
  rw [List.countP_map]
  apply List.countP_eq_zero.mpr
  intro x _
  rw [Function.comp_apply, h x]
  simp

lemma filter_index_groups (inst : Instance) (hwi : inst.wellIndexed)
    {g : Group} (hg : g ∈ inst.groups) :
    inst.groups.filter (fun g' => g'.index == g.index) = [g] :=
  filter_eq_singleton
    (countP_index_eq_one Group.index inst.groups hwi.2 g.index
      (index_lt_of_mem _ _ hwi.2 hg))
    hg (by simp)

lemma prefSeg_countP_zero (inst : Instance) (a' : Assistant) (pr : Stmt → Bool)
    (h : ∀ w i j, pr (Stmt.softPref w i j) = false) :
    (prefStmtsSpec inst a').countP pr = 0 := by
  unfold prefStmtsSpec
  exact countP_map_zero _ _ _ (fun g => h _ _ _)

lemma consecSeg_countP_zero (inst : Instance) (a' : Assistant) (pr : Stmt → Bool)
    (h : ∀ w i p j, pr (Stmt.softConsec w i p j) = false) :
    (consecStmtsFor inst a').countP pr = 0 := by
  unfold consecStmtsFor
  rw [countP_filterMap']
  apply List.countP_eq_zero.mpr
  intro g _
  cases hgp : g.pred
  · simp
  · simp [h]

lemma prefSeg_countP_softPref (inst : Instance) (hwi : inst.wellIndexed)
    (ta tg : Nat) (htg : tg < inst.groups.length) (a' : Assistant) :
    (prefStmtsSpec inst a').countP
      (fun s => match s with | Stmt.softPref _ i j => i == ta && j == tg | _ => false)
      = if a'.index == ta then 1 else 0 := by
  unfold prefStmtsSpec
  rw [List.countP_map]
  by_cases h : (a'.index == ta) = true
  · have hfun : ((fun s => match s with
        | Stmt.softPref _ i j => i == ta && j == tg | _ => false) ∘
        (fun g : Group => Stmt.softPref (penaltyFor inst (a'.prefs.getD g.index '?'))
          a'.index g.index)) = (fun g : Group => g.index == tg) := by
      funext g
      show (a'.index == ta && g.index == tg) = (g.index == tg)
      rw [h, Bool.true_and]
    rw [hfun, countP_index_eq_one Group.index inst.groups hwi.2 tg htg, if_pos h]
  · have h' : (a'.index == ta) = false := by simpa using h
    have hfun : ((fun s => match s with
        | Stmt.softPref _ i j => i == ta && j == tg | _ => false) ∘
        (fun g : Group => Stmt.softPref (penaltyFor inst (a'.prefs.getD g.index '?'))
          a'.index g.index)) = (fun _ : Group => false) := by
      funext g
      show (a'.index == ta && g.index == tg) = false
      rw [h', Bool.false_and]
    rw [hfun, if_neg h]
    simp

lemma countP_congr' {α : Type} {p q : α → Bool} {l : List α}
    (h : ∀ a ∈ l, p a = q a) : l.countP p = l.countP q := by
  induction l with
  | nil => rfl
  | cons x xs ih =>
    rw [List.countP_cons, List.countP_cons, h x (by simp),
      ih (fun y hy => h y (by simp [hy]))]

lemma consecSeg_countP_softConsec (inst : Instance) (hwi : inst.wellIndexed)
    (ta : Nat) {g : Group} (hg : g ∈ inst.groups) {p : Nat} (hp : g.pred = some p)
    (a' : Assistant) :
    (consecStmtsFor inst a').countP
      (fun s => match s with
        | Stmt.softConsec _ i _ j => i == ta && j == g.index | _ => false)
      = if a'.index == ta then 1 else 0 := by
  unfold consecStmtsFor
  rw [countP_filterMap']
  by_cases h : (a'.index == ta) = true
  · rw [if_pos h]
    trans inst.groups.countP (fun g' : Group => g'.pred.isSome && (g'.index == g.index))
    · apply countP_congr'
      intro g' _
      cases hgp : g'.pred <;> simp [h]
    · rw [show inst.groups.countP (fun g' : Group => g'.pred.isSome && (g'.index == g.index))
          = (inst.groups.filter (fun g' : Group => g'.index == g.index)).countP
              (fun g' : Group => g'.pred.isSome)
          from (List.countP_filter _ _ _).symm,
        filter_index_groups inst hwi hg]
      simp [hp]
  · have h' : (a'.index == ta) = false := by simpa using h
    rw [if_neg h]
    trans inst.groups.countP (fun _ : Group => false)
    · apply countP_congr'
      intro g' _
      cases hgp : g'.pred <;> simp [h']
    · simp

lemma block_countP_cardA (inst : Instance) (t : Nat) (a' : Assistant) :
    (assistantBlockSpec inst a').countP
      (fun s => match s with | Stmt.cardA _ i _ => i == t | _ => false)
      = if a'.index == t then 1 else 0 := by
  unfold assistantBlockSpec
  rw [List.countP_cons, List.countP_append,
    prefSeg_countP_zero inst a' _ (fun _ _ _ => rfl),
    consecSeg_countP_zero inst a' _ (fun _ _ _ _ => rfl)]
  simp

lemma block_countP_cardG (inst : Instance) (t : Nat) (a' : Assistant) :
    (assistantBlockSpec inst a').countP
      (fun s => match s with | Stmt.cardG _ i _ => i == t | _ => false) = 0 := by
  unfold assistantBlockSpec
  rw [List.countP_cons, List.countP_append,
    prefSeg_countP_zero inst a' _ (fun _ _ _ => rfl),
    consecSeg_countP_zero inst a' _ (fun _ _ _ _ => rfl)]
  simp

lemma block_countP_softPref (inst : Instance) (hwi : inst.wellIndexed)
    (ta tg : Nat) (htg : tg < inst.groups.length) (a' : Assistant) :
    (assistantBlockSpec inst a').countP
      (fun s => match s with | Stmt.softPref _ i j => i == ta && j == tg | _ => false)
      = if a'.index == ta then 1 else 0 := by
  unfold assistantBlockSpec
  rw [List.countP_cons, List.countP_append,
    prefSeg_countP_softPref inst hwi ta tg htg a',
    consecSeg_countP_zero inst a' _ (fun _ _ _ _ => rfl)]
  simp

lemma block_countP_softConsec (inst : Instance) (hwi : inst.wellIndexed)
    (ta : Nat) {g : Group} (hg : g ∈ inst.groups) {p : Nat} (hp : g.pred = some p)
    (a' : Assistant) :
    (assistantBlockSpec inst a').countP
      (fun s => match s with
        | Stmt.softConsec _ i _ j => i == ta && j == g.index | _ => false)
      = if a'.index == ta then 1 else 0 := by
  unfold assistantBlockSpec
  rw [List.countP_cons, List.countP_append,
    prefSeg_countP_zero inst a' _ (fun _ _ _ => rfl),
    consecSeg_countP_softConsec inst hwi ta hg hp a']
  simp

lemma programSpec_countP_split (inst : Instance) (pr : Stmt → Bool) :
    (programSpec inst).countP pr
    = (inst.assistants.map (fun a => Stmt.factA a.index)).countP pr
      + (inst.groups.map (fun g => Stmt.factG g.index)).countP pr
      + (inst.assistants.map (fun a' => (assistantBlockSpec inst a').countP pr)).sum
      + (inst.groups.map (fun g => Stmt.cardG g.min g.index g.max)).countP pr := by
  unfold programSpec
  rw [List.countP_append, List.countP_append, List.countP_append,
    List.countP_join, List.map_map]
  rfl

lemma programSpec_count_cardA (inst : Instance) (hwi : inst.wellIndexed)
    {a : Assistant} (ha : a ∈ inst.assistants) :
    (programSpec inst).countP
      (fun s => match s with | Stmt.cardA _ i _ => i == a.index | _ => false) = 1 := by
  rw [programSpec_countP_split,
    countP_map_zero _ _ _ (fun _ => rfl), countP_map_zero _ _ _ (fun _ => rfl),
    countP_map_zero _ _ _ (fun _ => rfl),
    List.map_congr_left (fun a' _ => block_countP_cardA inst a.index a')]
  have hs : (inst.assistants.map
      (fun a' => if a'.index == a.index then 1 else 0)).sum
      = inst.assistants.countP (fun a' => a'.index == a.index) :=
    sum_map_ite _ _
  rw [hs, countP_index_eq_one Assistant.index inst.assistants hwi.1 a.index
    (index_lt_of_mem _ _ hwi.1 ha)]

lemma programSpec_count_cardG (inst : Instance) (hwi : inst.wellIndexed)
    {g : Group} (hg : g ∈ inst.groups) :
    (programSpec inst).countP
      (fun s => match s with | Stmt.cardG _ i _ => i == g.index | _ => false) = 1 := by
  rw [programSpec_countP_split,
    countP_map_zero _ _ _ (fun _ => rfl), countP_map_zero _ _ _ (fun _ => rfl),
    List.map_congr_left (fun a' _ => block_countP_cardG inst g.index a')]
  have hz : (inst.assistants.map (fun _ => (0 : Nat))).sum = 0 := by simp
  rw [hz, List.countP_map]
  have hc : inst.groups.countP
      ((fun s => match s with | Stmt.cardG _ i _ => i == g.index | _ => false) ∘
        (fun g' => Stmt.cardG g'.min g'.index g'.max))
      = inst.groups.countP (fun g' => g'.index == g.index) :=
    countP_congr' (fun g' _ => rfl)
  rw [hc, countP_index_eq_one Group.index inst.groups hwi.2 g.index
    (index_lt_of_mem _ _ hwi.2 hg)]

lemma programSpec_count_softPref (inst : Instance) (hwi : inst.wellIndexed)
    {a : Assistant} (ha : a ∈ inst.assistants)
    {g : Group} (hg : g ∈ inst.groups) :
    (programSpec inst).countP
      (fun s => match s with
        | Stmt.softPref _ i j => i == a.index && j == g.index | _ => false) = 1 := by
  rw [programSpec_countP_split,
    countP_map_zero _ _ _ (fun _ => rfl), countP_map_zero _ _ _ (fun _ => rfl),
    countP_map_zero _ _ _ (fun _ => rfl),
    List.map_congr_left (fun a' _ => block_countP_softPref inst hwi a.index g.index
      (index_lt_of_mem _ _ hwi.2 hg) a')]
  have hs : (inst.assistants.map
      (fun a' => if a'.index == a.index then 1 else 0)).sum
      = inst.assistants.countP (fun a' => a'.index == a.index) :=
    sum_map_ite _ _
  rw [hs, countP_index_eq_one Assistant.index inst.assistants hwi.1 a.index
    (index_lt_of_mem _ _ hwi.1 ha)]

lemma programSpec_count_softConsec (inst : Instance) (hwi : inst.wellIndexed)
    {a : Assistant} (ha : a ∈ inst.assistants)
    {g : Group} (hg : g ∈ inst.groups) {p : Nat} (hp : g.pred = some p) :
    (programSpec inst).countP
      (fun s => match s with
        | Stmt.softConsec _ i _ j => i == a.index && j == g.index | _ => false) = 1 := by
  rw [programSpec_countP_split,
    countP_map_zero _ _ _ (fun _ => rfl), countP_map_zero _ _ _ (fun _ => rfl),
    countP_map_zero _ _ _ (fun _ => rfl),
    List.map_congr_left (fun a' _ => block_countP_softConsec inst hwi a.index hg hp a')]
  have hs : (inst.assistants.map
      (fun a' => if a'.index == a.index then 1 else 0)).sum
      = inst.assistants.countP (fun a' => a'.index == a.index) :=
    sum_map_ite _ _
  rw [hs, countP_index_eq_one Assistant.index inst.assistants hwi.1 a.index
    (index_lt_of_mem _ _ hwi.1 ha)]

/-!
Membership of the individual constraints in the generated program.
-/

lemma block_mem_programSpec (inst : Instance) {a : Assistant}
    (ha : a ∈ inst.assistants) {s : Stmt} (hs : s ∈ assistantBlockSpec inst a) :
    s ∈ programSpec inst := by
  unfold programSpec
  exact List.mem_append.mpr (Or.inl (List.mem_append.mpr (Or.inr
    (List.mem_flatten.mpr ⟨assistantBlockSpec inst a,
      List.mem_map_of_mem _ ha, hs⟩))))

lemma cardA_mem_programSpec (inst : Instance) {a : Assistant}
    (ha : a ∈ inst.assistants) :
    Stmt.cardA a.min a.index a.max ∈ programSpec inst :=
  block_mem_programSpec inst ha (by
    unfold assistantBlockSpec
    exact List.mem_cons_self _ _)

lemma softPref_mem_programSpec (inst : Instance) {a : Assistant}
    (ha : a ∈ inst.assistants) {g : Group} (hg : g ∈ inst.groups) :
    Stmt.softPref (penaltyFor inst (a.prefs.getD g.index '?')) a.index g.index
      ∈ programSpec inst :=
  block_mem_programSpec inst ha (by
    unfold assistantBlockSpec
    refine List.mem_cons_of_mem _ (List.mem_append.mpr (Or.inl ?_))
    unfold prefStmtsSpec
    exact List.mem_map_of_mem _ hg)

lemma softConsec_mem_programSpec (inst : Instance) {a : Assistant}
    (ha : a ∈ inst.assistants) {g : Group} (hg : g ∈ inst.groups)
    {p : Nat} (hp : g.pred = some p) :
    Stmt.softConsec inst.penalty_consecutive a.index p g.index ∈ programSpec inst :=
  block_mem_programSpec inst ha (by
    unfold assistantBlockSpec
    refine List.mem_cons_of_mem _ (List.mem_append.mpr (Or.inr ?_))
    unfold consecStmtsFor
    exact List.mem_filterMap.mpr ⟨g, hg, by rw [hp]⟩)

lemma cardG_mem_programSpec (inst : Instance) {g : Group} (hg : g ∈ inst.groups) :
    Stmt.cardG g.min g.index g.max ∈ programSpec inst := by
  unfold programSpec
  exact List.mem_append.mpr (Or.inr (List.mem_map_of_mem _ hg))

/-!
Hard-constraint satisfaction depends only on the cardinality counts of the
assignment.
-/

lemma all_congr' {α : Type} {p q : α → Bool} {l : List α}
    (h : ∀ a ∈ l, p a = q a) : l.all p = l.all q := by
  induction l with
  | nil => rfl
  | cons x xs ih =>
    rw [List.all_cons, List.all_cons, h x (by simp),
      ih (fun y hy => h y (by simp [hy]))]

lemma hardOK_count_invariant (aF gF : List Nat) (S T : Nat → Nat → Bool)
    (hA : ∀ a, gF.countP (fun g => S a g) = gF.countP (fun g => T a g))
    (hG : ∀ g, aF.countP (fun a => S a g) = aF.countP (fun a => T a g))
    (s : Stmt) : Stmt.hardOK aF gF S s = Stmt.hardOK aF gF T s := by
  cases s <;> simp [Stmt.hardOK, hA, hG]

lemma hardSat_count_invariant (prog : List Stmt) (S T : Nat → Nat → Bool)
    (hA : ∀ a, (gFactsOf prog).countP (fun g => S a g)
      = (gFactsOf prog).countP (fun g => T a g))
    (hG : ∀ g, (aFactsOf prog).countP (fun a => S a g)
      = (aFactsOf prog).countP (fun a => T a g)) :
    hardSat prog S = hardSat prog T := by
  unfold hardSat
  exact all_congr' (fun s _ => hardOK_count_invariant _ _ S T hA hG s)

/-!
Length of the generated program.
-/

lemma sum_map_const {α : Type} (l : List α) (c : Nat) :
    (l.map (fun _ => c)).sum = l.length * c := by
  induction l with
  | nil => simp
  | cons x xs ih =>
    simp only [List.map_cons, List.sum_cons, List.length_cons, ih]
    ring

lemma consecStmts_length (inst : Instance) (a' : Assistant) :
    (consecStmtsFor inst a').length = inst.groups.countP (fun g => g.pred.isSome) := by
  unfold consecStmtsFor
  generalize inst.groups = gs
  induction gs with
  | nil => rfl
  | cons g rest ih =>
    cases hgp : g.pred <;>
      simp [List.filterMap_cons, hgp, List.countP_cons, ih]

lemma blockSpec_length (inst : Instance) (a' : Assistant) :
    (assistantBlockSpec inst a').length
      = 1 + inst.groups.length + inst.groups.countP (fun g => g.pred.isSome) := by
  unfold assistantBlockSpec prefStmtsSpec
  rw [List.length_cons, List.length_append, List.length_map, consecStmts_length]
  omega

lemma programSpec_length (inst : Instance) :
    (programSpec inst).length
    = inst.assistants.length + inst.groups.length
      + inst.assistants.length * (1 + inst.groups.length
          + inst.groups.countP (fun g => g.pred.isSome))
      + inst.groups.length := by
  unfold programSpec
  rw [List.length_append, List.length_append, List.length_append,
    List.length_map, List.length_map, List.length_map,
    List.length_join, List.map_map,
    List.map_congr_left (fun a' _ => by
      rw [Function.comp_apply, blockSpec_length inst a']),
    sum_map_const]

/-!
The claim theorems.
-/

/-- Claim C10: on a well-formed instance with `A` assistants, `G` groups and
`P` groups having a predecessor, `make_program` returns a program of exactly
`A + G + A*(1 + G + P) + G` statements, ordered as recorded by `programSpec`:
assistant facts in index order, group facts in index order, then for each
assistant (in index order) its cardinality constraint followed by its `G`
preference weak constraints in group-index order and its `P`
consecutive-penalty weak constraints in group-index order, and finally the
`G` group cardinality constraints in group-index order. -/
theorem claim10_program_shape (inst : Instance) (hwi : inst.wellIndexed)
    (hpr : inst.prefsOk) :
    makeProgram inst = some (programSpec inst) ∧
    (programSpec inst).length
      = inst.assistants.length + inst.groups.length
        + inst.assistants.length * (1 + inst.groups.length
            + inst.groups.countP (fun g => g.pred.isSome))
        + inst.groups.length :=
  ⟨makeProgram_explicit inst hwi hpr, programSpec_length inst⟩

/-- Witness for C10 on the specification's scenario instance. -/
theorem claim10_witness :
    (Instance.wellIndexed sampleInst ∧ Instance.prefsOk sampleInst) ∧
    (makeProgram sampleInst = some (programSpec sampleInst) ∧
      (programSpec sampleInst).length
        = sampleInst.assistants.length + sampleInst.groups.length
          + sampleInst.assistants.length * (1 + sampleInst.groups.length
              + sampleInst.groups.countP (fun g => g.pred.isSome))
          + sampleInst.groups.length) := by
  have hwi : Instance.wellIndexed sampleInst := by
    unfold Instance.wellIndexed
    decide
  have hpr : Instance.prefsOk sampleInst := by
    unfold Instance.prefsOk
    decide
  exact ⟨⟨hwi, hpr⟩, claim10_program_shape sampleInst hwi hpr⟩

/-- Claim C9: for every instance satisfying the load-time preference
validation (each assistant has exactly one preference character per group and
every character is a legal preference symbol), `make_program` is total: no
preference lookup is out of range and the `assert False` branch is
unreachable, i.e. `makeProgram` returns a program instead of the `none` that
embeds those failures. -/
theorem claim9_totality (inst : Instance) (hpr : inst.prefsOk) :
    (makeProgram inst).isSome := by
  unfold makeProgram
  obtain ⟨l, hl⟩ := Option.isSome_iff_exists.mp
    (mapM_isSome_of_forall (assistantStmts inst) inst.assistants
      (fun a ha => assistantStmts_isSome inst a (hpr a ha).1 (hpr a ha).2))
  rw [hl]
  rfl

/-- Witness for C9 on the specification's scenario instance. -/
theorem claim9_witness :
    Instance.prefsOk sampleInst ∧ (makeProgram sampleInst).isSome := by
  have hpr : Instance.prefsOk sampleInst := by
    unfold Instance.prefsOk
    decide
  exact ⟨hpr, claim9_totality sampleInst hpr⟩

/-- Claim C1: for every validated instance and every assignment satisfying
the hard cardinality constraints of the program produced by `make_program`,
the total weight of the violated soft constraints of that program equals
`penalty_bad_time` times the number of assigned pairs with a BAD preference,
plus `penalty_ok_time` times the OK pairs, plus `penalty_good_time` times the
GOOD pairs, plus `penalty_consecutive` times the number of
(predecessor group, group) pairs both assigned to the same assistant. -/
theorem claim1_cost (inst : Instance) (hwi : inst.wellIndexed)
    (hpr : inst.prefsOk) (prog : List Stmt)
    (hprog : makeProgram inst = some prog) (S : Nat → Nat → Bool)
    (hhard : hardSat prog S = true) :
    totalCost prog S
    = inst.penalty_bad_time * (countPref inst S PREF_BAD : Int)
    + inst.penalty_ok_time * (countPref inst S PREF_OK : Int)
    + inst.penalty_good_time * (countPref inst S PREF_GOOD : Int)
    + inst.penalty_consecutive * (countConsec inst S : Int) := by
  have h := makeProgram_explicit inst hwi hpr
  rw [hprog] at h
  have h2 := Option.some.inj h
  subst h2
  exact totalCost_programSpec inst hwi hpr S

/-- Witness for C1 on the specification's scenario instance with the
assignment `A1 on G1, A2 on G2`. -/
theorem claim1_witness :
    (Instance.wellIndexed sampleInst ∧ Instance.prefsOk sampleInst ∧
      makeProgram sampleInst = some (programSpec sampleInst) ∧
      hardSat (programSpec sampleInst) sampleS = true) ∧
    totalCost (programSpec sampleInst) sampleS
      = sampleInst.penalty_bad_time * (countPref sampleInst sampleS PREF_BAD : Int)
      + sampleInst.penalty_ok_time * (countPref sampleInst sampleS PREF_OK : Int)
      + sampleInst.penalty_good_time * (countPref sampleInst sampleS PREF_GOOD : Int)
      + sampleInst.penalty_consecutive * (countConsec sampleInst sampleS : Int) := by
  have hwi : Instance.wellIndexed sampleInst := by
    unfold Instance.wellIndexed
    decide
  have hpr : Instance.prefsOk sampleInst := by
    unfold Instance.prefsOk
    decide
  have hprog : makeProgram sampleInst = some (programSpec sampleInst) := by decide
  have hhard : hardSat (programSpec sampleInst) sampleS = true := by decide
  exact ⟨⟨hwi, hpr, hprog, hhard⟩,
    claim1_cost sampleInst hwi hpr (programSpec sampleInst) hprog sampleS hhard⟩

/-- Claim C4: on a validated instance the program produced by `make_program`
contains, for each assistant, exactly one cardinality constraint (and it
requires that assistant to take between its `min` and `max` groups), and, for
each group, exactly one cardinality constraint (and it requires that group to
have between its `min` and `max` assistants). -/
theorem claim4_cardinality (inst : Instance) (hwi : inst.wellIndexed)
    (hpr : inst.prefsOk) (prog : List Stmt)
    (hprog : makeProgram inst = some prog) :
    (∀ a ∈ inst.assistants,
      prog.countP (fun s => match s with
        | Stmt.cardA _ i _ => i == a.index | _ => false) = 1 ∧
      Stmt.cardA a.min a.index a.max ∈ prog) ∧
    (∀ g ∈ inst.groups,
      prog.countP (fun s => match s with
        | Stmt.cardG _ i _ => i == g.index | _ => false) = 1 ∧
      Stmt.cardG g.min g.index g.max ∈ prog) := by
  have h := makeProgram_explicit inst hwi hpr
  rw [hprog] at h
  have h2 := Option.some.inj h
  subst h2
  exact ⟨fun a ha => ⟨programSpec_count_cardA inst hwi ha,
      cardA_mem_programSpec inst ha⟩,
    fun g hg => ⟨programSpec_count_cardG inst hwi hg,
      cardG_mem_programSpec inst hg⟩⟩

/-- Witness for C4 on the specification's scenario instance, at assistant
`A1` and group `G1`. -/
theorem claim4_witness :
    (Instance.wellIndexed sampleInst ∧ Instance.prefsOk sampleInst ∧
      makeProgram sampleInst = some (programSpec sampleInst) ∧
      sampleA1 ∈ sampleInst.assistants ∧ sampleG1 ∈ sampleInst.groups) ∧
    ((programSpec sampleInst).countP (fun s => match s with
        | Stmt.cardA _ i _ => i == sampleA1.index | _ => false) = 1 ∧
      Stmt.cardA sampleA1.min sampleA1.index sampleA1.max ∈ programSpec sampleInst ∧
      (programSpec sampleInst).countP (fun s => match s with
        | Stmt.cardG _ i _ => i == sampleG1.index | _ => false) = 1 ∧
      Stmt.cardG sampleG1.min sampleG1.index sampleG1.max ∈ programSpec sampleInst) := by
  have hwi : Instance.wellIndexed sampleInst := by
    unfold Instance.wellIndexed
    decide
  have hpr : Instance.prefsOk sampleInst := by
    unfold Instance.prefsOk
    decide
  have hprog : makeProgram sampleInst = some (programSpec sampleInst) := by decide
  have hA : sampleA1 ∈ sampleInst.assistants := by decide
  have hG : sampleG1 ∈ sampleInst.groups := by decide
  have h := claim4_cardinality sampleInst hwi hpr (programSpec sampleInst) hprog
  obtain ⟨h1, h2⟩ := h.1 sampleA1 hA
  obtain ⟨h3, h4⟩ := h.2 sampleG1 hG
  exact ⟨⟨hwi, hpr, hprog, hA, hG⟩, h1, h2, h3, h4⟩

/-- Claim C5: on a validated instance, for every assistant and every group
the generated program contains exactly one preference weak constraint on that
(assistant, group) pair, and its cost is `penalty_bad_time` when the
assistant's preference character at the group's index is BAD,
`penalty_ok_time` when it is OK, and `penalty_good_time` when it is GOOD. -/
theorem claim5_pref_soft (inst : Instance) (hwi : inst.wellIndexed)
    (hpr : inst.prefsOk) (prog : List Stmt)
    (hprog : makeProgram inst = some prog) :
    ∀ a ∈ inst.assistants, ∀ g ∈ inst.groups,
      prog.countP (fun s => match s with
        | Stmt.softPref _ i j => i == a.index && j == g.index | _ => false) = 1 ∧
      (a.prefs.getD g.index '?' = PREF_BAD →
        Stmt.softPref inst.penalty_bad_time a.index g.index ∈ prog) ∧
      (a.prefs.getD g.index '?' = PREF_OK →
        Stmt.softPref inst.penalty_ok_time a.index g.index ∈ prog) ∧
      (a.prefs.getD g.index '?' = PREF_GOOD →
        Stmt.softPref inst.penalty_good_time a.index g.index ∈ prog) := by
  have h := makeProgram_explicit inst hwi hpr
  rw [hprog] at h
  have h2 := Option.some.inj h
  subst h2
  intro a ha g hg
  refine ⟨programSpec_count_softPref inst hwi ha hg, ?_, ?_, ?_⟩
  · intro hc
    have hm := softPref_mem_programSpec inst ha hg
    rw [hc] at hm
    exact hm
  · intro hc
    have hm := softPref_mem_programSpec inst ha hg
    rw [hc] at hm
    exact hm
  · intro hc
    have hm := softPref_mem_programSpec inst ha hg
    rw [hc] at hm
    exact hm

/-- Witness for C5 on the specification's scenario instance at assistant `A1`
and group `G2`, where `A1`'s preference is OK. -/
theorem claim5_witness :
    (Instance.wellIndexed sampleInst ∧ Instance.prefsOk sampleInst ∧
      makeProgram sampleInst = some (programSpec sampleInst) ∧
      sampleA1 ∈ sampleInst.assistants ∧ sampleG2 ∈ sampleInst.groups ∧
      sampleA1.prefs.getD sampleG2.index '?' = PREF_OK) ∧
    ((programSpec sampleInst).countP (fun s => match s with
        | Stmt.softPref _ i j => i == sampleA1.index && j == sampleG2.index
        | _ => false) = 1 ∧
      Stmt.softPref sampleInst.penalty_ok_time sampleA1.index sampleG2.index
        ∈ programSpec sampleInst) := by
  have hwi : Instance.wellIndexed sampleInst := by
    unfold Instance.wellIndexed
    decide
  have hpr : Instance.prefsOk sampleInst := by
    unfold Instance.prefsOk
    decide
  have hprog : makeProgram sampleInst = some (programSpec sampleInst) := by decide
  have hA : sampleA1 ∈ sampleInst.assistants := by decide
  have hG : sampleG2 ∈ sampleInst.groups := by decide
  have hok : sampleA1.prefs.getD sampleG2.index '?' = PREF_OK := by decide
  obtain ⟨h1, _, h2, _⟩ :=
    claim5_pref_soft sampleInst hwi hpr (programSpec sampleInst) hprog
      sampleA1 hA sampleG2 hG
  exact ⟨⟨hwi, hpr, hprog, hA, hG, hok⟩, h1, h2 hok⟩

/-- Claim C6: on a validated instance, for every assistant and every group
with a predecessor, the generated program contains exactly one
consecutive-penalty weak constraint on that (assistant, group) pair; it has
cost `penalty_consecutive` and is violated exactly when the assistant is
linked both to the predecessor group and to the group itself.  No hard
constraint forbids such a back-to-back assignment: weak constraints impose no
hard restriction, and the satisfaction of the hard constraints depends only
on the cardinality counts of the assignment. -/
theorem claim6_consecutive (inst : Instance) (hwi : inst.wellIndexed)
    (hpr : inst.prefsOk) (prog : List Stmt)
    (hprog : makeProgram inst = some prog) :
    (∀ a ∈ inst.assistants, ∀ g ∈ inst.groups, ∀ p : Nat, g.pred = some p →
      prog.countP (fun s => match s with
        | Stmt.softConsec _ i _ j => i == a.index && j == g.index
        | _ => false) = 1 ∧
      Stmt.softConsec inst.penalty_consecutive a.index p g.index ∈ prog ∧
      ∀ S : Nat → Nat → Bool,
        (Stmt.softConsec inst.penalty_consecutive a.index p g.index).violatedBy S
          = (S a.index p && S a.index g.index)) ∧
    (∀ (aF gF : List Nat) (S : Nat → Nat → Bool) (w : Int) (i q j : Nat),
      Stmt.hardOK aF gF S (Stmt.softConsec w i q j) = true) ∧
    (∀ S T : Nat → Nat → Bool,
      (∀ a, (gFactsOf prog).countP (fun g => S a g)
        = (gFactsOf prog).countP (fun g => T a g)) →
      (∀ g, (aFactsOf prog).countP (fun a => S a g)
        = (aFactsOf prog).countP (fun a => T a g)) →
      hardSat prog S = hardSat prog T) := by
  have h := makeProgram_explicit inst hwi hpr
  rw [hprog] at h
  have h2 := Option.some.inj h
  subst h2
  exact ⟨fun a ha g hg p hp =>
      ⟨programSpec_count_softConsec inst hwi ha hg hp,
        softConsec_mem_programSpec inst ha hg hp,
        fun _ => rfl⟩,
    fun _ _ _ _ _ _ _ => rfl,
    hardSat_count_invariant (programSpec inst)⟩

/-- Witness for C6 on the specification's scenario instance at assistant `A1`
and group `G2` (whose predecessor is `G1`). -/
theorem claim6_witness :
    (Instance.wellIndexed sampleInst ∧ Instance.prefsOk sampleInst ∧
      makeProgram sampleInst = some (programSpec sampleInst) ∧
      sampleA1 ∈ sampleInst.assistants ∧ sampleG2 ∈ sampleInst.groups ∧
      sampleG2.pred = some 0) ∧
    ((programSpec sampleInst).countP (fun s => match s with
        | Stmt.softConsec _ i _ j => i == sampleA1.index && j == sampleG2.index
        | _ => false) = 1 ∧
      Stmt.softConsec sampleInst.penalty_consecutive sampleA1.index 0 sampleG2.index
        ∈ programSpec sampleInst ∧
      (Stmt.softConsec sampleInst.penalty_consecutive sampleA1.index 0
          sampleG2.index).violatedBy sampleS
        = (sampleS sampleA1.index 0 && sampleS sampleA1.index sampleG2.index)) := by
  have hwi : Instance.wellIndexed sampleInst := by
    unfold Instance.wellIndexed
    decide
  have hpr : Instance.prefsOk sampleInst := by
    unfold Instance.prefsOk
    decide
  have hprog : makeProgram sampleInst = some (programSpec sampleInst) := by decide
  have hA : sampleA1 ∈ sampleInst.assistants := by decide
  have hG : sampleG2 ∈ sampleInst.groups := by decide
  have hp : sampleG2.pred = some 0 := by decide
  obtain ⟨h1, h2, h3⟩ :=
    (claim6_consecutive sampleInst hwi hpr (programSpec sampleInst) hprog).1
      sampleA1 hA sampleG2 hG 0 hp
  exact ⟨⟨hwi, hpr, hprog, hA, hG, hp⟩, h1, h2, h3 sampleS⟩

/-- Claim C3: on instances that pass the per-entity checks of the semantic
validation of `Instance.load` (penalties, group bounds, assistant bounds,
preference length and alphabet), the validation invokes the error callback if
and only if one of the two aggregate feasibility conditions fails: the sum of
assistant maxima is less than the sum of group minima, or the sum of
assistant minima exceeds the sum of group maxima.  The validation is part of
`Instance.load`, so rejection happens before any encoding or solving. -/
theorem claim3_aggregate (inst : Instance)
    (hp : penaltiesError inst = none) (hg : groupsError inst = none)
    (ha : assistantsError inst = none) :
    (semanticValidation inst).isSome ↔
      ((inst.assistants.map Assistant.max).sum < (inst.groups.map Group.min).sum
       ∨ (inst.groups.map Group.max).sum < (inst.assistants.map Assistant.min).sum) := by
  unfold semanticValidation
  rw [hp, hg, ha]
  simp only [Option.none_orElse]
  simp only [aggregateError]
  split_ifs with h1 h2
  · simp only [Option.isSome_some, true_iff]
    exact Or.inl h1
  · simp only [Option.isSome_some, true_iff]
    exact Or.inr h2
  · simp only [Option.isSome_none, Bool.false_eq_true, false_iff]
    rintro (hc | hc)
    · exact h1 hc
    · exact h2 hc

/-- Witness for C3 on the boundary instance whose single assistant has
`max = 0` while the single group has `min = 1`: the per-entity checks pass
and the instance is rejected by the aggregate check. -/
theorem claim3_witness :
    (penaltiesError boundaryInst = none ∧ groupsError boundaryInst = none ∧
      assistantsError boundaryInst = none) ∧
    ((semanticValidation boundaryInst).isSome ↔
      ((boundaryInst.assistants.map Assistant.max).sum
          < (boundaryInst.groups.map Group.min).sum
       ∨ (boundaryInst.groups.map Group.max).sum
          < (boundaryInst.assistants.map Assistant.min).sum)) ∧
    (semanticValidation boundaryInst).isSome := by
  have h1 : penaltiesError boundaryInst = none := by decide
  have h2 : groupsError boundaryInst = none := by decide
  have h3 : assistantsError boundaryInst = none := by decide
  refine ⟨⟨h1, h2, h3⟩, claim3_aggregate boundaryInst h1 h2 h3, ?_⟩
  exact (claim3_aggregate boundaryInst h1 h2 h3).mpr (Or.inl (by decide))

/-- Claim C2 (code bug): when the solve loop of `main` in
`assistant_scheduler.py` ends with zero models found, `best_model` is `None`,
and the interpretation stage dereferences it (`best_model.symbols(atoms=True)`)
without a `None` check, raising `AttributeError` instead of reporting that no
schedule was found and exiting with code 0.  The old script
`assistant-scheduler.py` does report the no-schedule message with exit code 0
and no penalty list in the same situation. -/
theorem claim2_no_model_crash :
    bestModelOf [] = none ∧
    mainInterpretStage sampleInst (bestModelOf [])
      = Except.error "AttributeError: NoneType object has no attribute symbols" ∧
    oldMainNoModelsReport 0
      = some ("No scheduling found within time limits. Perhaps not enough assistants available?", 0) :=
  ⟨rfl, rfl, rfl⟩

/-- Claim C8 (code bug): `Group.json` interpolates the group name without
quotation marks, so the serialized form of a loaded instance with a typical
group name such as `G1` contains `"name": G1`, whose value begins with `G` —
not a legal first character of any JSON value — making the output invalid
JSON, so reloading it fails instead of reproducing an equal instance. -/
theorem claim8_unquoted_name :
    Group.json jsonInst jsonGroup = "\x7b\"name\": G1, \"min\": 1, \"max\": 1\x7d" ∧
    (Group.json jsonInst jsonGroup).toList.getD 9 ' ' = 'G' ∧
    'G' ∉ jsonValueStartChars := by
  refine ⟨by decide, by decide, by decide⟩

/-- Claim C7 counterexample: the non-optimality list produced by the result
interpreter is not independent of the enumeration order of the assignment
set — two enumerations of the same two-atom assignment produce different
lists. -/
theorem claim7_counterexample :
    ([((0 : Nat), (0 : Nat)), (0, 1)] : List (Nat × Nat)).Perm [(0, 1), (0, 0)] ∧
    interpretPenalties orderInst [(0, 0), (0, 1)]
      ≠ interpretPenalties orderInst [(0, 1), (0, 0)] := by
  exact ⟨by decide, by decide⟩

/-!
The actual content and order of the non-optimality list.
-/

lemma prefLineFor_eq_spec (inst : Instance) (hwi : inst.wellIndexed)
    (hpr : inst.prefsOk) (pr : Nat × Nat)
    (h1 : pr.1 < inst.assistants.length) (h2 : pr.2 < inst.groups.length) :
    prefLineFor inst pr
      = some ((prefLineOf (inst.assistants.get ⟨pr.1, h1⟩)
          (inst.groups.get ⟨pr.2, h2⟩)).toList) := by
  have hamem : inst.assistants.get ⟨pr.1, h1⟩ ∈ inst.assistants :=
    List.get_mem _ _ _
  have hglen : (inst.groups.get ⟨pr.2, h2⟩).index
      < (inst.assistants.get ⟨pr.1, h1⟩).prefs.length := by
    rw [(hpr _ hamem).1, hwi.2 pr.2 h2]
    exact h2
  have hgd : (inst.assistants.get ⟨pr.1, h1⟩).prefs.getD
        (inst.groups.get ⟨pr.2, h2⟩).index '?'
      = (inst.assistants.get ⟨pr.1, h1⟩).prefs.get
        ⟨(inst.groups.get ⟨pr.2, h2⟩).index, hglen⟩ := by
    rw [List.getD_eq_get?, List.get?_eq_get hglen]
    rfl
  unfold prefLineFor prefLineOf
  simp only [List.get?_eq_get h1, List.get?_eq_get h2]
  simp only [List.get?_eq_get hglen, hgd]
  split_ifs <;> rfl

lemma prefPenalties_eq_spec (inst : Instance) (hwi : inst.wellIndexed)
    (hpr : inst.prefsOk) :
    ∀ atoms : List (Nat × Nat),
      (∀ pr ∈ atoms, pr.1 < inst.assistants.length ∧ pr.2 < inst.groups.length) →
      prefPenalties inst atoms = some (prefLinesSpec inst atoms) := by
  intro atoms
  induction atoms with
  | nil => intro _; rfl
  | cons pr rest ih =>
    intro hrange
    obtain ⟨h1, h2⟩ := hrange pr (by simp)
    have hrest := ih (fun q hq => hrange q (by simp [hq]))
    have hline := prefLineFor_eq_spec inst hwi hpr pr h1 h2
    unfold prefPenalties at hrest ⊢
    cases hm : rest.mapM (prefLineFor inst) with
    | none =>
      rw [hm] at hrest
      exact absurd hrest (by simp)
    | some ls =>
      rw [hm] at hrest
      have hflat : ls.flatten = prefLinesSpec inst rest := Option.some.inj hrest
      rw [List.mapM_cons, hline, hm]
      show some (((prefLineOf _ _).toList :: ls).flatten) = _
      rw [List.flatten_cons, hflat]
      unfold prefLinesSpec
      rw [List.filterMap_cons]
      have heqa : inst.assistants.get? pr.1
          = some (inst.assistants.get ⟨pr.1, h1⟩) := List.get?_eq_get h1
      have heqg : inst.groups.get? pr.2
          = some (inst.groups.get ⟨pr.2, h2⟩) := List.get?_eq_get h2
      simp only [heqa, heqg]
      cases hopt : prefLineOf (inst.assistants.get ⟨pr.1, h1⟩)
          (inst.groups.get ⟨pr.2, h2⟩) with
      | none => simp [hopt]
      | some l => simp [hopt]

lemma consecPenalties_eq_spec (inst : Instance) (hpreds : inst.predsOk)
    (sched : Nat → List Assistant) :
    consecPenalties inst sched = some ((inst.groups.map (fun group =>
      match group.pred with
      | none => []
      | some p =>
        match inst.groups.get? p with
        | none => []
        | some predGroup =>
          (sched predGroup.index).filterMap (fun assistant =>
            if assistant ∈ sched group.index then
              some ("\"" ++ assistant.name ++ "\" on \"" ++ predGroup.name ++
                    "\" and \"" ++ group.name ++ "\": consecutive groups")
            else none))).flatten) := by
  unfold consecPenalties
  rw [mapM_eq_map_of_some _ (fun group =>
      match group.pred with
      | none => []
      | some p =>
        match inst.groups.get? p with
        | none => []
        | some predGroup =>
          (sched predGroup.index).filterMap (fun assistant =>
            if assistant ∈ sched group.index then
              some ("\"" ++ assistant.name ++ "\" on \"" ++ predGroup.name ++
                    "\" and \"" ++ group.name ++ "\": consecutive groups")
            else none))
    inst.groups (fun g hg => ?_)]
  · cases hgp : g.pred with
    | none => simp [hgp]
    | some p =>
      have hplt : p < inst.groups.length := hpreds g hg p hgp
      simp only [hgp, List.get?_eq_get hplt]

lemma prefCharAt_eq (inst : Instance) (pr : Nat × Nat)
    (h1 : pr.1 < inst.assistants.length) (h2 : pr.2 < inst.groups.length) :
    prefCharAt inst pr
      = (inst.assistants.get ⟨pr.1, h1⟩).prefs.getD
          (inst.groups.get ⟨pr.2, h2⟩).index '?' := by
  unfold prefCharAt
  rw [List.get?_eq_get h1, List.get?_eq_get h2]

lemma prefLineOf_isSome (a : Assistant) (g : Group) :
    (prefLineOf a g).isSome = ((a.prefs.getD g.index '?' == PREF_BAD)
      || (a.prefs.getD g.index '?' == PREF_OK)) := by
  unfold prefLineOf
  split_ifs <;> simp_all

lemma prefLinesSpec_length (inst : Instance) :
    ∀ atoms : List (Nat × Nat),
      (∀ pr ∈ atoms, pr.1 < inst.assistants.length ∧ pr.2 < inst.groups.length) →
      (prefLinesSpec inst atoms).length
        = atoms.countP (fun pr => (prefCharAt inst pr == PREF_BAD)
            || (prefCharAt inst pr == PREF_OK)) := by
  intro atoms
  induction atoms with
  | nil => intro _; rfl
  | cons pr rest ih =>
    intro hrange
    obtain ⟨h1, h2⟩ := hrange pr (by simp)
    have hrest := ih (fun q hq => hrange q (by simp [hq]))
    unfold prefLinesSpec at hrest ⊢
    rw [List.filterMap_cons, List.countP_cons]
    have hchar := prefCharAt_eq inst pr h1 h2
    have heqa : inst.assistants.get? pr.1
        = some (inst.assistants.get ⟨pr.1, h1⟩) := List.get?_eq_get h1
    have heqg : inst.groups.get? pr.2
        = some (inst.groups.get ⟨pr.2, h2⟩) := List.get?_eq_get h2
    simp only [heqa, heqg]
    cases hopt : prefLineOf (inst.assistants.get ⟨pr.1, h1⟩)
        (inst.groups.get ⟨pr.2, h2⟩) with
    | none =>
      have hcond : ((prefCharAt inst pr == PREF_BAD)
          || (prefCharAt inst pr == PREF_OK)) = false := by
        rw [hchar, ← prefLineOf_isSome, hopt]
        rfl
      simp_all
    | some l =>
      have hcond : ((prefCharAt inst pr == PREF_BAD)
          || (prefCharAt inst pr == PREF_OK)) = true := by
        rw [hchar, ← prefLineOf_isSome, hopt]
        rfl
      simp_all

/-- Claim C7, amended: for every instance and every in-range enumeration of
the assignment set, the non-optimality list is the preference lines — one
line per assigned pair whose preference symbol is BAD or OK, never a line for
a GOOD pair, in the enumeration order of the assignment set — followed by the
consecutive-group lines with groups in index order and assistants in the
order of the per-group schedule; the list follows the enumeration order of
the assignment set rather than being canonical. -/
theorem claim7_amended (inst : Instance) (hwi : inst.wellIndexed)
    (hpr : inst.prefsOk) (hpreds : inst.predsOk) (atoms : List (Nat × Nat))
    (hrange : ∀ pr ∈ atoms,
      pr.1 < inst.assistants.length ∧ pr.2 < inst.groups.length) :
    interpretPenalties inst atoms
      = some (prefLinesSpec inst atoms ++ consecLinesSpec inst atoms) ∧
    (prefLinesSpec inst atoms).length
      = atoms.countP (fun pr => (prefCharAt inst pr == PREF_BAD)
          || (prefCharAt inst pr == PREF_OK)) := by
  constructor
  · unfold interpretPenalties
    rw [prefPenalties_eq_spec inst hwi hpr atoms hrange,
      consecPenalties_eq_spec inst hpreds (schedOf inst atoms)]
    rfl
  · exact prefLinesSpec_length inst atoms hrange

/-- Witness for the amended C7 on the specification's scenario instance with
the enumeration `A1 on G1, A1 on G2, A2 on G2`. -/
theorem claim7_witness :
    (Instance.wellIndexed sampleInst ∧ Instance.prefsOk sampleInst ∧
      Instance.predsOk sampleInst) ∧
    (interpretPenalties sampleInst [(0, 0), (0, 1), (1, 1)]
      = some (prefLinesSpec sampleInst [(0, 0), (0, 1), (1, 1)]
          ++ consecLinesSpec sampleInst [(0, 0), (0, 1), (1, 1)]) ∧
    (prefLinesSpec sampleInst [(0, 0), (0, 1), (1, 1)]).length
      = ([((0 : Nat), (0 : Nat)), (0, 1), (1, 1)]).countP
          (fun pr => (prefCharAt sampleInst pr == PREF_BAD)
            || (prefCharAt sampleInst pr == PREF_OK))) := by
  have hwi : Instance.wellIndexed sampleInst := by
    unfold Instance.wellIndexed
    decide
  have hpr : Instance.prefsOk sampleInst := by
    unfold Instance.prefsOk
    decide
  have hpd : Instance.predsOk sampleInst := by
    unfold Instance.predsOk
    decide
  exact ⟨⟨hwi, hpr, hpd⟩,
    claim7_amended sampleInst hwi hpr hpd [(0, 0), (0, 1), (1, 1)] (by decide)⟩

end Sched
